import Mathlib

/-!
Shallow embedding of the `string-reader` crate (`src/lib.rs`): readers for
`&str` / `String` chunks with an explicit FIFO queue and an optional fallback
source, plus the `std::io::Read` / `BufRead` adapters for `StringReader`.

Rust strings are modelled as their UTF-8 byte sequences (`List Nat`); Rust
string slicing `s[..l]` / `s[l..]` panics when `l` is not a char boundary,
which the model makes explicit. Trait objects are modelled as typeclasses of
pure state-passing operations.
-/

/-- The bytes of a Rust `String` / `&str` (UTF-8 encoded). -/
abbrev Str : Type := List Nat

/-- Bytes of an ASCII string literal, for concrete test inputs. -/
def ascii (s : String) : Str := s.toList.map Char.toNat

/-- Embedding of the `StringRead` trait (which extends `StrRead`): the
operations a fallback source of a `StringReader` provides, as pure
state-passing functions. `pop_string` returns the popped value together with
the mutated state; `peek_mut_string` is split into the value seen through the
`&mut String` (`peek_mut_string`) and the effect of assigning through that
reference (`write_mut_string`). -/
class StringReadC (ρ : Type) where
  peek_str : ρ → Option Str
  is_empty : ρ → Bool
  pop_string : ρ → Option Str × ρ
  peek_mut_string : ρ → Option Str
  write_mut_string : ρ → Str → ρ

/-- Embedding of the `RealStrRead` trait (which extends `StrRead`) for
fallback sources of a `StrReader`. -/
class RealStrReadC (σ : Type) where
  peek_str : σ → Option Str
  is_empty : σ → Bool
  pop_str : σ → Option Str × σ

namespace StringImpl

/-- `impl StrRead for String`: `peek_str` returns `Some(self)`, always. -/
def peek_str (s : Str) : Option Str := some s

/-- `StrRead::is_empty` default implementation `peek_str().is_none()`,
which `impl StrRead for String` does not override. -/
def is_empty (s : Str) : Bool := (peek_str s).isNone

/-- `impl StringRead for String`: `pop_string` is
`Some(std::mem::take(self))` — return the whole content, leave `""` behind. -/
def pop_string (s : Str) : Option Str × Str := (some s, [])

/-- `impl StringRead for String`: `peek_mut_string` returns `Some(self)`. -/
def peek_mut_string (s : Str) : Option Str := some s

/-- Assigning through the `&mut String` handed out by `peek_mut_string`
replaces the whole buffer. -/
def write_mut_string (_s : Str) (v : Str) : Str := v

end StringImpl

instance : StringReadC Str where
  peek_str := StringImpl.peek_str
  is_empty := StringImpl.is_empty
  pop_string := StringImpl.pop_string
  peek_mut_string := StringImpl.peek_mut_string
  write_mut_string := StringImpl.write_mut_string

namespace StrImpl

/-- `impl StrRead for str`: `peek_str` returns `Some(self)`. -/
def peek_str (s : Str) : Option Str := some s

/-- `StrRead::is_empty` default implementation, not overridden for `str`. -/
def is_empty (s : Str) : Bool := (peek_str s).isNone

/-- `impl RealStrRead for str`: `pop_str` returns `Some(self)` and cannot
truncate the borrowed view, so the state is unchanged. -/
def pop_str (s : Str) : Option Str × Str := (some s, s)

end StrImpl

instance : RealStrReadC Str where
  peek_str := StrImpl.peek_str
  is_empty := StrImpl.is_empty
  pop_str := StrImpl.pop_str

/-- `pub struct StringReader<R: StringRead>`: a `VecDeque<String>` (front =
list head) and an optional fallback reader. -/
structure StringReader (ρ : Type) where
  queue : List Str
  reader : Option ρ
deriving DecidableEq, Repr

namespace StringReader

variable {ρ : Type} [StringReadC ρ]

/-- `StringReader::new` / `Default`: empty queue, no fallback. -/
def new : StringReader ρ := ⟨[], none⟩

/-- `impl From<R> for StringReader<R>`: empty queue, `Some(value)` fallback. -/
def from_reader (fb : ρ) : StringReader ρ := ⟨[], some fb⟩

/-- `impl From<VecDeque<String>> for StringReader<R>`. -/
def from_queue (q : List Str) : StringReader ρ := ⟨q, none⟩

/-- `StrRead::peek_str` for `StringReader`: queue front, else the fallback's
`peek_str`. -/
def peek_str (r : StringReader ρ) : Option Str :=
  (r.queue.head?).orElse fun _ => r.reader.bind fun fb => StringReadC.peek_str fb

/-- `StrRead::is_empty` override for `StringReader`:
`queue.is_empty() && reader.map_or(true, |r| r.is_empty())`. -/
def is_empty (r : StringReader ρ) : Bool :=
  r.queue.isEmpty &&
    (match r.reader with
     | none => true
     | some fb => StringReadC.is_empty fb)

/-- `StringRead::pop_string` for `StringReader`: pop the queue front, else
delegate to the fallback's `pop_string` (mutating the fallback in place). -/
def pop_string (r : StringReader ρ) : Option Str × StringReader ρ :=
  match r.queue with
  | c :: rest => (some c, ⟨rest, r.reader⟩)
  | [] =>
    match r.reader with
    | none => (none, r)
    | some fb =>
      let p := StringReadC.pop_string fb
      (p.1, ⟨[], some p.2⟩)

/-- `StringRead::peek_mut_string` for `StringReader` (the value seen through
the returned `&mut String`): queue front, else the fallback's
`peek_mut_string`. -/
def peek_mut_string (r : StringReader ρ) : Option Str :=
  (r.queue.head?).orElse fun _ => r.reader.bind fun fb => StringReadC.peek_mut_string fb

/-- The effect of assigning through the `&mut String` returned by
`peek_mut_string`: overwrite the queue front if the queue is non-empty, else
write through the fallback's mutable peek. -/
def write_mut_string (r : StringReader ρ) (v : Str) : StringReader ρ :=
  match r.queue with
  | _ :: rest => ⟨v :: rest, r.reader⟩
  | [] =>
    match r.reader with
    | none => r
    | some fb => ⟨[], some (StringReadC.write_mut_string fb v)⟩

/-- `StringWrite::push_string`: `queue.push_back(s)`. -/
def push_string (r : StringReader ρ) (s : Str) : StringReader ρ :=
  ⟨r.queue ++ [s], r.reader⟩

/-- `StringWrite::shift_string`: `queue.push_front(s)`. -/
def shift_string (r : StringReader ρ) (s : Str) : StringReader ρ :=
  ⟨s :: r.queue, r.reader⟩

end StringReader

/-- `pub struct StrReader<'a, R: RealStrRead>`: a `VecDeque<&'a str>` and an
optional fallback reader. -/
structure StrReader (σ : Type) where
  queue : List Str
  reader : Option σ
deriving DecidableEq, Repr

namespace StrReader

variable {σ : Type} [RealStrReadC σ]

/-- `StrReader::new` / `Default`. -/
def new : StrReader σ := ⟨[], none⟩

/-- `StrRead::peek_str` for `StrReader`: queue front (copied), else the
fallback's `peek_str`. -/
def peek_str (r : StrReader σ) : Option Str :=
  (r.queue.head?).orElse fun _ => r.reader.bind fun fb => RealStrReadC.peek_str fb

/-- `StrRead::is_empty` override for `StrReader`. -/
def is_empty (r : StrReader σ) : Bool :=
  r.queue.isEmpty &&
    (match r.reader with
     | none => true
     | some fb => RealStrReadC.is_empty fb)

/-- `RealStrRead::pop_str` for `StrReader`: pop the queue front, else
delegate to the fallback's `pop_str`. -/
def pop_str (r : StrReader σ) : Option Str × StrReader σ :=
  match r.queue with
  | c :: rest => (some c, ⟨rest, r.reader⟩)
  | [] =>
    match r.reader with
    | none => (none, r)
    | some fb =>
      let p := RealStrReadC.pop_str fb
      (p.1, ⟨[], some p.2⟩)

/-- `StrWrite::push_str`: `queue.push_back(s)`. -/
def push_str (r : StrReader σ) (s : Str) : StrReader σ :=
  ⟨r.queue ++ [s], r.reader⟩

/-- `StrWrite::shift_str`: `queue.push_front(s)`. -/
def shift_str (r : StrReader σ) (s : Str) : StrReader σ :=
  ⟨s :: r.queue, r.reader⟩

end StrReader

/-- Rust `str::is_char_boundary` on UTF-8 bytes: true at index 0, at the end
of the string, and at any byte that is not a UTF-8 continuation byte. A
string-slicing operation `s[..i]` / `s[i..]` panics when this is false. -/
def isCharBoundary (s : Str) (i : Nat) : Bool :=
  if i = 0 then true
  else
    match s[i]? with
    | none => i == s.length
    | some b => b < 0x80 || 0xC0 ≤ b

/-- Outcome of (a run of the loop of) `<StringReader as std::io::Read>::read`:
`ok buf n r` is `return Ok(n)` with final destination contents `buf` and
final reader state `r`; `panicked` is a Rust panic (out-of-bounds slice,
non-char-boundary string slice, `copy_from_slice` length mismatch, or
`unwrap` of `None`); `fuelOut` records the loop still running after the given
number of iterations, carrying the current loop state. -/
inductive ReadResult (ρ : Type) where
  | ok : List Nat → Nat → StringReader ρ → ReadResult ρ
  | panicked : ReadResult ρ
  | fuelOut : List Nat → Nat → Nat → StringReader ρ → ReadResult ρ
deriving DecidableEq, Repr

namespace StringReader

variable {ρ : Type} [StringReadC ρ]

/-- One iteration of the loop of `impl std::io::Read for StringReader`:
either the loop exits with a `ReadResult` (`exit`) or continues with an
updated loop state (`next`). -/
inductive LoopState (ρ : Type) where
  | exit : ReadResult ρ → LoopState ρ
  | next : StringReader ρ → List Nat → Nat → Nat → LoopState ρ
deriving DecidableEq, Repr

/-- The body of the `read` loop, from the source. Loop state: reader `r`,
destination contents `buf`, write position `pos`, remaining capacity `l`
(the code maintains `pos + l = buf.len()`).

`while let Some(s) = self.peek_mut_string()` — exit with `Ok(pos)` when the
peek is `None`. With `slen = s.len()`: if `slen > l` then
`buf[pos..].copy_from_slice(s[..l].as_bytes())`, `*s = s[l..].to_string()`,
`return Ok(buf.len())`; otherwise
`buf[pos..pos + slen].copy_from_slice(self.pop_string().unwrap().as_bytes())`,
`pos += slen`, `l -= slen`, continue. Each slicing / copying / unwrapping
step panics unless its check holds: `buf[pos..]` needs `pos <= buf.len()`,
`s[..l]` and `s[l..]` need `l` to be a char boundary of `s`,
`copy_from_slice` needs equal source and destination lengths, and
`buf[pos..pos + slen]` needs `pos + slen <= buf.len()`. -/
def readStep (r : StringReader ρ) (buf : List Nat) (pos l : Nat) : LoopState ρ :=
  match peek_mut_string r with
  | none => .exit (.ok buf pos r)
  | some s =>
    if s.length > l then
      if pos ≤ buf.length ∧ isCharBoundary s l = true ∧ buf.length - pos = l then
        .exit (.ok (buf.take pos ++ s.take l) buf.length
          (write_mut_string r (s.drop l)))
      else .exit .panicked
    else
      match pop_string r with
      | (none, _) => .exit .panicked
      | (some v, r') =>
        if pos + s.length ≤ buf.length ∧ v.length = s.length then
          .next r' (buf.take pos ++ v ++ buf.drop (pos + s.length))
            (pos + s.length) (l - s.length)
        else .exit .panicked

/-- The `read` loop, iteration-indexed: run `readStep` until it exits or the
iteration budget runs out. -/
def readLoop (fuel : Nat) (r : StringReader ρ) (buf : List Nat) (pos l : Nat) :
    ReadResult ρ :=
  match fuel with
  | 0 => .fuelOut buf pos l r
  | fuel + 1 =>
    match readStep r buf pos l with
    | .exit res => res
    | .next r' buf' pos' l' => readLoop fuel r' buf' pos' l'

/-- `Read::read(buf)` with an iteration budget: the loop started at
`pos = 0`, `l = buf.len()`. -/
def read (fuel : Nat) (r : StringReader ρ) (buf : List Nat) : ReadResult ρ :=
  readLoop fuel r buf 0 buf.length

/-- `BufRead::fill_buf` for `StringReader`: `peek_str` bytes if present, else
the fallback's `peek_str` bytes, else `Ok(&[])`; the receiver is not
mutated. -/
def fill_buf (r : StringReader ρ) : Except Unit (List Nat) :=
  match peek_str r with
  | some s => .ok s
  | none =>
    match r.reader.bind fun fb => StringReadC.peek_str fb with
    | some s => .ok s
    | none => .ok []

end StringReader

/-- Detects a loop run that exhausted its iteration budget. -/
def ReadResult.isFuelOut {ρ : Type} : ReadResult ρ → Bool
  | .fuelOut _ _ _ _ => true
  | _ => false

/-- `Read::read` terminates on this input: some finite iteration budget
suffices for the loop to exit (by returning or by panicking). -/
def StringReader.readTerminates {ρ : Type} [StringReadC ρ]
    (r : StringReader ρ) (buf : List Nat) : Prop :=
  ∃ fuel, (StringReader.read fuel r buf).isFuelOut = false

/-- One operation of an observation sequence on a reader's queue side:
push-to-back, push-to-front, or pop. -/
inductive DequeOp where
  | push : Str → DequeOp
  | shift : Str → DequeOp
  | pop : DequeOp
deriving DecidableEq, Repr

/-- Modelled from the spec: one step of the FIFO double-ended queue that
claim C7 compares the readers against. `push` appends at the tail, `shift`
prepends at the head, `pop` removes and returns the head (nothing when
empty). The output is the observable result of the operation. -/
def dequeStep (q : List Str) : DequeOp → Option Str × List Str
  | .push s => (none, q ++ [s])
  | .shift s => (none, s :: q)
  | .pop =>
    match q with
    | [] => (none, [])
    | c :: rest => (some c, rest)

/-- Run a sequence of operations on the spec-side deque, collecting the
observable outputs and the final queue. -/
def dequeRun (q : List Str) : List DequeOp → List (Option Str) × List Str
  | [] => ([], q)
  | op :: ops =>
    let p := dequeStep q op
    let rest := dequeRun p.2 ops
    (p.1 :: rest.1, rest.2)

/-- One operation on a `StringReader`, via `push_string` / `shift_string` /
`pop_string`; the output is the observable result. -/
def StringReader.opStep {ρ : Type} [StringReadC ρ] (r : StringReader ρ) :
    DequeOp → Option Str × StringReader ρ
  | .push s => (none, r.push_string s)
  | .shift s => (none, r.shift_string s)
  | .pop => r.pop_string

/-- Run a sequence of operations on a `StringReader`, collecting the
observable outputs and the final state. -/
def StringReader.opRun {ρ : Type} [StringReadC ρ] (r : StringReader ρ) :
    List DequeOp → List (Option Str) × StringReader ρ
  | [] => ([], r)
  | op :: ops =>
    let p := r.opStep op
    let rest := p.2.opRun ops
    (p.1 :: rest.1, rest.2)

/-- One operation on a `StrReader`, via `push_str` / `shift_str` /
`pop_str`. -/
def StrReader.opStep {σ : Type} [RealStrReadC σ] (r : StrReader σ) :
    DequeOp → Option Str × StrReader σ
  | .push s => (none, r.push_str s)
  | .shift s => (none, r.shift_str s)
  | .pop => r.pop_str

/-- Run a sequence of operations on a `StrReader`. -/
def StrReader.opRun {σ : Type} [RealStrReadC σ] (r : StrReader σ) :
    List DequeOp → List (Option Str) × StrReader σ
  | [] => ([], r)
  | op :: ops =>
    let p := r.opStep op
    let rest := p.2.opRun ops
    (p.1 :: rest.1, rest.2)

/-- The state of a bare `str` source after `n` calls to `pop_str`. -/
def StrImpl.popN (s : Str) : Nat → Str
  | 0 => s
  | n + 1 => (StrImpl.pop_str (StrImpl.popN s n)).2

/-! ## Helper lemmas -/

/-- On a fallback-free `StringReader`, each queue operation is exactly the
corresponding spec-deque step, and the fallback slot stays `none`. -/
theorem StringReader.opStep_no_fallback {ρ : Type} [StringReadC ρ] (q : List Str)
    (op : DequeOp) :
    StringReader.opStep (⟨q, (none : Option ρ)⟩ : StringReader ρ) op =
      ((dequeStep q op).1, ⟨(dequeStep q op).2, none⟩) := by
  cases op with
  | push s => rfl
  | shift s => rfl
  | pop => cases q <;> rfl

/-- On a fallback-free `StrReader`, each queue operation is exactly the
corresponding spec-deque step. -/
theorem StrReader.str_opStep_no_fallback {σ : Type} [RealStrReadC σ] (q : List Str)
    (op : DequeOp) :
    StrReader.opStep (⟨q, (none : Option σ)⟩ : StrReader σ) op =
      ((dequeStep q op).1, ⟨(dequeStep q op).2, none⟩) := by
  cases op with
  | push s => rfl
  | shift s => rfl
  | pop => cases q <;> rfl

/-- Extra iteration budget does not change the result of a `read` loop run
that already finished. -/
theorem StringReader.readLoop_add {ρ : Type} [StringReadC ρ] :
    ∀ (fuel k : Nat) (r : StringReader ρ) (buf : List Nat) (pos l : Nat),
      (StringReader.readLoop fuel r buf pos l).isFuelOut = false →
      StringReader.readLoop (fuel + k) r buf pos l =
        StringReader.readLoop fuel r buf pos l := by
  intro fuel
  induction fuel with
  | zero =>
    intro k r buf pos l h
    simp [StringReader.readLoop, ReadResult.isFuelOut] at h
  | succ fuel ih =>
    intro k r buf pos l h
    have e : fuel + 1 + k = (fuel + k) + 1 := by omega
    rw [e]
    rw [StringReader.readLoop] at h ⊢
    rw [StringReader.readLoop]
    cases hs : StringReader.readStep r buf pos l with
    | exit res => simp [hs]
    | next r' buf' pos' l' =>
      rw [hs] at h
      simp only [hs]
      exact ih k r' buf' pos' l' h

/-- Two lists that agree from position `m` on also agree from any later
position on. -/
theorem drop_agree_mono {α : Type} (xs ys : List α) (m n : Nat) (hmn : m ≤ n)
    (h : xs.drop m = ys.drop m) : xs.drop n = ys.drop n := by
  have hx := List.drop_drop (n - m) m xs
  have hy := List.drop_drop (n - m) m ys
  rw [h] at hx
  have e : m + (n - m) = n := by omega
  rw [e] at hx hy
  rw [← hx, ← hy]

/-- Any `Ok` return of the `read` loop only writes bytes `pos` to `n - 1` of
the destination: its length is preserved, the returned count `n` lies
between the starting position and the destination length, and the bytes from
`n` on are untouched. The hypothesis is the loop invariant
`pos + l = buf.len()` maintained by the code. -/
theorem StringReader.readLoop_ok_spec {ρ : Type} [StringReadC ρ] :
    ∀ (fuel : Nat) (r : StringReader ρ) (buf : List Nat) (pos l : Nat)
      (buf' : List Nat) (n : Nat) (r' : StringReader ρ),
      pos + l = buf.length →
      StringReader.readLoop fuel r buf pos l = .ok buf' n r' →
      buf'.length = buf.length ∧ pos ≤ n ∧ n ≤ buf.length ∧
        buf'.drop n = buf.drop n := by
  intro fuel
  induction fuel with
  | zero =>
    intro r buf pos l buf' n r' hinv h
    rw [StringReader.readLoop] at h
    exact absurd h (by simp)
  | succ fuel ih =>
    intro r buf pos l buf' n r' hinv h
    rw [StringReader.readLoop] at h
    cases hp : StringReader.peek_mut_string r with
    | none =>
      rw [show StringReader.readStep r buf pos l = .exit (.ok buf pos r) by
        simp [StringReader.readStep, hp]] at h
      have h' : ReadResult.ok buf pos r = ReadResult.ok buf' n r' := h
      simp only [ReadResult.ok.injEq] at h'
      obtain ⟨h1, h2, h3⟩ := h'
      subst h1; subst h2
      exact ⟨rfl, Nat.le_refl _, by omega, rfl⟩
    | some s =>
      by_cases hgt : s.length > l
      · by_cases hok : pos ≤ buf.length ∧ isCharBoundary s l = true ∧
            buf.length - pos = l
        · rw [show StringReader.readStep r buf pos l =
              .exit (.ok (buf.take pos ++ s.take l) buf.length
                (StringReader.write_mut_string r (s.drop l))) by
            simp [StringReader.readStep, hp, hgt, hok]] at h
          have h' : ReadResult.ok (buf.take pos ++ s.take l) buf.length
              (StringReader.write_mut_string r (s.drop l)) =
              ReadResult.ok buf' n r' := h
          simp only [ReadResult.ok.injEq] at h'
          obtain ⟨h1, h2, h3⟩ := h'
          subst h1; subst h2
          obtain ⟨hok1, hok2, hok3⟩ := hok
          refine ⟨?_, by omega, by omega, ?_⟩
          · simp only [List.length_append, List.length_take]
            omega
          · have hlen : (buf.take pos ++ s.take l).length = buf.length := by
              simp only [List.length_append, List.length_take]
              omega
            rw [List.drop_eq_nil_of_le (le_of_eq hlen),
              List.drop_length buf]
        · rw [show StringReader.readStep r buf pos l = .exit .panicked by
            simp [StringReader.readStep, hp, hgt, hok]] at h
          exact absurd (show ReadResult.panicked = ReadResult.ok buf' n r' from h)
            (by simp)
      · cases hpop : StringReader.pop_string r with
        | mk vo r2 =>
          cases vo with
          | none =>
            rw [show StringReader.readStep r buf pos l = .exit .panicked by
              simp [StringReader.readStep, hp, hgt, hpop]] at h
            exact absurd (show ReadResult.panicked = ReadResult.ok buf' n r' from h)
              (by simp)
          | some v =>
            by_cases hok : pos + s.length ≤ buf.length ∧ v.length = s.length
            · rw [show StringReader.readStep r buf pos l =
                  .next r2 (buf.take pos ++ v ++ buf.drop (pos + s.length))
                    (pos + s.length) (l - s.length) by
                simp [StringReader.readStep, hp, hgt, hpop, hok]] at h
              have h' : StringReader.readLoop fuel r2
                  (buf.take pos ++ v ++ buf.drop (pos + s.length))
                  (pos + s.length) (l - s.length) = .ok buf' n r' := h
              have hsl : s.length ≤ l := Nat.le_of_not_lt hgt
              obtain ⟨hok1, hok2⟩ := hok
              have hinv2 : (pos + s.length) + (l - s.length) =
                  (buf.take pos ++ v ++ buf.drop (pos + s.length)).length := by
                simp only [List.length_append, List.length_take, List.length_drop]
                omega
              obtain ⟨ih1, ih2, ih3, ih4⟩ := ih _ _ _ _ _ _ _ hinv2 h'
              have hbuf2len : (buf.take pos ++ v ++
                  buf.drop (pos + s.length)).length = buf.length := by
                simp only [List.length_append, List.length_take, List.length_drop]
                omega
              refine ⟨by omega, by omega, by omega, ?_⟩
              have hpref : (buf.take pos ++ v).length = pos + s.length := by
                simp only [List.length_append, List.length_take]
                omega
              have hdropeq : (buf.take pos ++ v ++
                  buf.drop (pos + s.length)).drop (pos + s.length) =
                  buf.drop (pos + s.length) :=
                List.drop_left' hpref
              have hagree : (buf.take pos ++ v ++
                  buf.drop (pos + s.length)).drop n = buf.drop n :=
                drop_agree_mono _ _ (pos + s.length) n (by omega) hdropeq
              rw [ih4, hagree]
            · rw [show StringReader.readStep r buf pos l = .exit .panicked by
                simp [StringReader.readStep, hp, hgt, hpop, hok]] at h
              exact absurd (show ReadResult.panicked = ReadResult.ok buf' n r' from h)
                (by simp)

/-- On a fallback-free reader the `read` loop exits within `queue.length + 1`
iterations: each iteration either exits or pops one queue chunk. -/
theorem StringReader.readLoop_none_term {ρ : Type} [StringReadC ρ] :
    ∀ (q : List Str) (k : Nat) (buf : List Nat) (pos l : Nat),
      (StringReader.readLoop (q.length + 1 + k)
        (⟨q, (none : Option ρ)⟩ : StringReader ρ) buf pos l).isFuelOut = false := by
  intro q
  induction q with
  | nil =>
    intro k buf pos l
    rw [show ([] : List Str).length + 1 + k = k + 1 by
      simp only [List.length_nil]
      omega,
      StringReader.readLoop,
      show StringReader.readStep (⟨[], none⟩ : StringReader ρ) buf pos l =
        .exit (.ok buf pos ⟨[], none⟩) by
          simp [StringReader.readStep, StringReader.peek_mut_string]]
    rfl
  | cons c rest ih =>
    intro k buf pos l
    rw [show (c :: rest).length + 1 + k = (rest.length + 1 + k) + 1 by
      simp [List.length_cons]; omega, StringReader.readLoop]
    have hp : StringReader.peek_mut_string
        (⟨c :: rest, none⟩ : StringReader ρ) = some c := rfl
    by_cases hgt : c.length > l
    · by_cases hok : pos ≤ buf.length ∧ isCharBoundary c l = true ∧
          buf.length - pos = l
      · rw [show StringReader.readStep (⟨c :: rest, none⟩ : StringReader ρ)
            buf pos l = .exit (.ok (buf.take pos ++ c.take l) buf.length
              (StringReader.write_mut_string ⟨c :: rest, none⟩ (c.drop l))) by
          simp [StringReader.readStep, hp, hgt, hok]]
        rfl
      · rw [show StringReader.readStep (⟨c :: rest, none⟩ : StringReader ρ)
            buf pos l = .exit .panicked by
          simp [StringReader.readStep, hp, hgt, hok]]
        rfl
    · have hpop : StringReader.pop_string (⟨c :: rest, none⟩ : StringReader ρ) =
          (some c, ⟨rest, none⟩) := rfl
      by_cases hok : pos + c.length ≤ buf.length ∧ c.length = c.length
      · rw [show StringReader.readStep (⟨c :: rest, none⟩ : StringReader ρ)
            buf pos l = .next ⟨rest, none⟩
              (buf.take pos ++ c ++ buf.drop (pos + c.length))
              (pos + c.length) (l - c.length) by
          simp [StringReader.readStep, hp, hgt, hpop, hok]]
        exact ih k _ _ _
      · have hlt : buf.length < pos + c.length := by
          by_contra hcon
          exact hok ⟨by omega, rfl⟩
        rw [show StringReader.readStep (⟨c :: rest, none⟩ : StringReader ρ)
            buf pos l = .exit .panicked by
          simp [StringReader.readStep, hp, hgt, hpop]
          omega]
        rfl

/-- With a `String` fallback whose content is empty, one iteration of the
`read` loop returns to exactly the same loop state: the fallback peeks
`Some("")`, the zero-length chunk is popped (leaving the fallback `String`
in place, still empty), and nothing advances. -/
theorem StringReader.readStep_empty_fallback :
    StringReader.readStep (⟨[], some ([] : Str)⟩ : StringReader Str) [0] 0 1 =
      .next ⟨[], some []⟩ [0] 0 1 := by decide

/-- Consequently the loop never exits on that state, whatever the budget. -/
theorem StringReader.readLoop_empty_fallback :
    ∀ fuel, StringReader.readLoop fuel
        (⟨[], some ([] : Str)⟩ : StringReader Str) [0] 0 1 =
      .fuelOut [0] 0 1 ⟨[], some []⟩ := by
  intro fuel
  induction fuel with
  | zero => rfl
  | succ fuel ih =>
    rw [StringReader.readLoop, StringReader.readStep_empty_fallback]
    exact ih

/-- `pop_string` never removes the fallback slot. -/
theorem StringReader.pop_reader_isSome {ρ : Type} [StringReadC ρ]
    (r : StringReader ρ) :
    (StringReader.pop_string r).2.reader.isSome = r.reader.isSome := by
  obtain ⟨q, fb⟩ := r
  cases q with
  | nil => cases fb <;> rfl
  | cons c rest => rfl

/-- Writing through `peek_mut_string` never removes the fallback slot. -/
theorem StringReader.write_reader_isSome {ρ : Type} [StringReadC ρ]
    (r : StringReader ρ) (v : Str) :
    (StringReader.write_mut_string r v).reader.isSome = r.reader.isSome := by
  obtain ⟨q, fb⟩ := r
  cases q with
  | nil => cases fb <;> rfl
  | cons c rest => rfl

/-- The `read` loop never removes the fallback slot either: the reader state
it returns in an `Ok` has a fallback exactly when the starting state did. -/
theorem StringReader.readLoop_ok_reader_isSome {ρ : Type} [StringReadC ρ] :
    ∀ (fuel : Nat) (r : StringReader ρ) (buf : List Nat) (pos l : Nat)
      (buf' : List Nat) (n : Nat) (r' : StringReader ρ),
      StringReader.readLoop fuel r buf pos l = .ok buf' n r' →
      r'.reader.isSome = r.reader.isSome := by
  intro fuel
  induction fuel with
  | zero =>
    intro r buf pos l buf' n r' h
    rw [StringReader.readLoop] at h
    exact absurd h (by simp)
  | succ fuel ih =>
    intro r buf pos l buf' n r' h
    rw [StringReader.readLoop] at h
    cases hp : StringReader.peek_mut_string r with
    | none =>
      rw [show StringReader.readStep r buf pos l = .exit (.ok buf pos r) by
        simp [StringReader.readStep, hp]] at h
      have h' : ReadResult.ok buf pos r = ReadResult.ok buf' n r' := h
      simp only [ReadResult.ok.injEq] at h'
      rw [← h'.2.2]
    | some s =>
      by_cases hgt : s.length > l
      · by_cases hok : pos ≤ buf.length ∧ isCharBoundary s l = true ∧
            buf.length - pos = l
        · rw [show StringReader.readStep r buf pos l =
              .exit (.ok (buf.take pos ++ s.take l) buf.length
                (StringReader.write_mut_string r (s.drop l))) by
            simp [StringReader.readStep, hp, hgt, hok]] at h
          have h' : ReadResult.ok (buf.take pos ++ s.take l) buf.length
              (StringReader.write_mut_string r (s.drop l)) =
              ReadResult.ok buf' n r' := h
          simp only [ReadResult.ok.injEq] at h'
          rw [← h'.2.2]
          exact StringReader.write_reader_isSome r (s.drop l)
        · rw [show StringReader.readStep r buf pos l = .exit .panicked by
            simp [StringReader.readStep, hp, hgt, hok]] at h
          exact absurd (show ReadResult.panicked = ReadResult.ok buf' n r' from h)
            (by simp)
      · cases hpop : StringReader.pop_string r with
        | mk vo r2 =>
          cases vo with
          | none =>
            rw [show StringReader.readStep r buf pos l = .exit .panicked by
              simp [StringReader.readStep, hp, hgt, hpop]] at h
            exact absurd (show ReadResult.panicked = ReadResult.ok buf' n r' from h)
              (by simp)
          | some v =>
            by_cases hok : pos + s.length ≤ buf.length ∧ v.length = s.length
            · rw [show StringReader.readStep r buf pos l =
                  .next r2 (buf.take pos ++ v ++ buf.drop (pos + s.length))
                    (pos + s.length) (l - s.length) by
                simp [StringReader.readStep, hp, hgt, hpop, hok]] at h
              have h' : StringReader.readLoop fuel r2
                  (buf.take pos ++ v ++ buf.drop (pos + s.length))
                  (pos + s.length) (l - s.length) = .ok buf' n r' := h
              have h2 := ih _ _ _ _ _ _ _ h'
              have h3 : r2.reader.isSome = r.reader.isSome := by
                have := StringReader.pop_reader_isSome r
                rw [hpop] at this
                exact this
              rw [h2, h3]
            · rw [show StringReader.readStep r buf pos l = .exit .panicked by
                simp [StringReader.readStep, hp, hgt, hpop, hok]] at h
              exact absurd (show ReadResult.panicked = ReadResult.ok buf' n r' from h)
                (by simp)

/-! ## Claims -/

/-- C1: For every `StringReader` and `StrReader` state, peek (`peek_str` /
`peek_mut_string`) and pop (`pop_string` / `pop_str`) consult the queue
before the fallback source: with a non-empty queue they return (resp.
remove) the queue's front chunk and leave the fallback untouched; only with
an empty queue do they delegate to the fallback; and pushing a chunk after
the queue was drained makes the next pop come from the queue again, leaving
the fallback untouched. -/
theorem queue_before_fallback {ρ σ : Type} [StringReadC ρ] [RealStrReadC σ] :
    (∀ (c : Str) (rest : List Str) (fb : Option ρ),
      StringReader.peek_str ⟨c :: rest, fb⟩ = some c ∧
      StringReader.peek_mut_string ⟨c :: rest, fb⟩ = some c ∧
      StringReader.pop_string ⟨c :: rest, fb⟩ = (some c, ⟨rest, fb⟩)) ∧
    (∀ fb : ρ,
      StringReader.peek_str (⟨[], some fb⟩ : StringReader ρ) =
        StringReadC.peek_str fb ∧
      StringReader.peek_mut_string (⟨[], some fb⟩ : StringReader ρ) =
        StringReadC.peek_mut_string fb ∧
      StringReader.pop_string (⟨[], some fb⟩ : StringReader ρ) =
        ((StringReadC.pop_string fb).1,
          ⟨[], some (StringReadC.pop_string fb).2⟩)) ∧
    (∀ (fb : Option ρ) (v : Str),
      StringReader.pop_string (StringReader.push_string ⟨[], fb⟩ v) =
        (some v, ⟨[], fb⟩)) ∧
    (∀ (c : Str) (rest : List Str) (fb : Option σ),
      StrReader.peek_str ⟨c :: rest, fb⟩ = some c ∧
      StrReader.pop_str ⟨c :: rest, fb⟩ = (some c, ⟨rest, fb⟩)) ∧
    (∀ fb : σ,
      StrReader.peek_str (⟨[], some fb⟩ : StrReader σ) =
        RealStrReadC.peek_str fb ∧
      StrReader.pop_str (⟨[], some fb⟩ : StrReader σ) =
        ((RealStrReadC.pop_str fb).1, ⟨[], some (RealStrReadC.pop_str fb).2⟩)) ∧
    (∀ (fb : Option σ) (v : Str),
      StrReader.pop_str (StrReader.push_str ⟨[], fb⟩ v) = (some v, ⟨[], fb⟩)) :=
  ⟨fun _ _ _ => ⟨rfl, rfl, rfl⟩, fun _ => ⟨rfl, rfl, rfl⟩, fun _ _ => rfl,
    fun _ _ _ => ⟨rfl, rfl⟩, fun _ => ⟨rfl, rfl⟩, fun _ _ => rfl⟩

/-- C2: on a fallback-free `StringReader` queued with "hello" and " world",
one `read` into an 8-byte buffer returns `Ok(8)` having written "hello wo"
and leaves the single front chunk "rld"; a second `read` into a 3-byte
buffer returns `Ok(3)` with "rld" and leaves the reader empty (`is_empty`,
and a further read returns `Ok(0)`). Stated for every sufficient iteration
budget. -/
theorem read_hello_world :
    (∀ k : Nat, StringReader.read (2 + k)
        (⟨[ascii "hello", ascii " world"], (none : Option Str)⟩)
        (List.replicate 8 0) =
      .ok (ascii "hello wo") 8 ⟨[ascii "rld"], none⟩) ∧
    (∀ k : Nat, StringReader.read (2 + k)
        (⟨[ascii "rld"], (none : Option Str)⟩) [0, 0, 0] =
      .ok (ascii "rld") 3 ⟨[], none⟩) ∧
    StringReader.is_empty (⟨[], (none : Option Str)⟩) = true ∧
    (∀ k : Nat, StringReader.read (1 + k) (⟨[], (none : Option Str)⟩)
        [0, 0, 0] = .ok [0, 0, 0] 0 ⟨[], none⟩) := by
  refine ⟨fun k => ?_, fun k => ?_, rfl, fun k => ?_⟩
  · rw [StringReader.read, StringReader.readLoop_add 2 k _ _ _ _ (by decide)]
    decide
  · rw [StringReader.read, StringReader.readLoop_add 2 k _ _ _ _ (by decide)]
    decide
  · rw [StringReader.read, StringReader.readLoop_add 1 k _ _ _ _ (by decide)]
    decide

/-- C5 (counterexample): after popping an owned `String` source once, a
second `pop_string` returns `Some("")`, not nothing (`None`). -/
theorem string_second_pop_not_none :
    (StringImpl.pop_string (StringImpl.pop_string (ascii "hai")).2).1 ≠ none := by
  decide

/-- C5 (amended): the first `pop_string` on an owned `String` source returns
the entire original content and leaves an empty buffer behind (`mem::take`
semantics); every subsequent pop returns `Some` of the empty string (never
`None`). -/
theorem string_pop_take :
    (∀ s : Str, StringImpl.pop_string s = (some s, [])) ∧
    StringImpl.pop_string ([] : Str) = (some [], []) :=
  ⟨fun _ => rfl, rfl⟩

/-- C7: with no fallback source, any sequence of push-back / push-front /
pop operations on a `StringReader` or `StrReader` is observably a FIFO
double-ended queue: the outputs and final queue match the spec-side deque
run, and push / shift never touch the fallback slot. -/
theorem deque_refinement {ρ σ : Type} [StringReadC ρ] [RealStrReadC σ] :
    (∀ (ops : List DequeOp) (q : List Str),
      StringReader.opRun (⟨q, (none : Option ρ)⟩ : StringReader ρ) ops =
        ((dequeRun q ops).1, ⟨(dequeRun q ops).2, none⟩)) ∧
    (∀ (ops : List DequeOp) (q : List Str),
      StrReader.opRun (⟨q, (none : Option σ)⟩ : StrReader σ) ops =
        ((dequeRun q ops).1, ⟨(dequeRun q ops).2, none⟩)) ∧
    (∀ (r : StringReader ρ) (s : Str),
      (StringReader.push_string r s).reader = r.reader ∧
      (StringReader.shift_string r s).reader = r.reader) ∧
    (∀ (r : StrReader σ) (s : Str),
      (StrReader.push_str r s).reader = r.reader ∧
      (StrReader.shift_str r s).reader = r.reader) := by
  refine ⟨?_, ?_, fun r s => ⟨rfl, rfl⟩, fun r s => ⟨rfl, rfl⟩⟩
  · intro ops
    induction ops with
    | nil => intro q; rfl
    | cons op ops ih =>
      intro q
      simp only [StringReader.opRun, StringReader.opStep_no_fallback, dequeRun]
      rw [ih]
  · intro ops
    induction ops with
    | nil => intro q; rfl
    | cons op ops ih =>
      intro q
      simp only [StrReader.opRun, StrReader.str_opStep_no_fallback, dequeRun]
      rw [ih]

/-- C8: a bare `str` slice as its own single-chunk source: `pop_str` is
idempotent — after any number of preceding pops it still returns `Some` of
the same full slice with the state unchanged, and the source never reports
empty. -/
theorem str_pop_idempotent :
    (∀ (s : Str) (n : Nat), StrImpl.popN s n = s) ∧
    (∀ (s : Str) (n : Nat),
      StrImpl.pop_str (StrImpl.popN s n) = (some s, s) ∧
      StrImpl.is_empty (StrImpl.popN s n) = false) := by
  have hN : ∀ (s : Str) (n : Nat), StrImpl.popN s n = s := by
    intro s n
    induction n with
    | zero => rfl
    | succ n ih => simp [StrImpl.popN, StrImpl.pop_str, ih]
  exact ⟨hN, fun s n => by rw [hN]; exact ⟨rfl, rfl⟩⟩

/-- C9: `BufRead::fill_buf` always returns `Ok` — of the queue front's bytes
when the queue is non-empty, of the fallback's peeked bytes otherwise, and
of the empty byte slice when nothing remains; it never produces an error
and (being a pure function of the state here) removes and modifies
nothing. -/
theorem fill_buf_never_errs {ρ : Type} [StringReadC ρ] :
    (∀ (c : Str) (rest : List Str) (fb : Option ρ),
      StringReader.fill_buf ⟨c :: rest, fb⟩ = .ok c) ∧
    (∀ fb : ρ, StringReader.fill_buf (⟨[], some fb⟩ : StringReader ρ) =
      .ok ((StringReadC.peek_str fb).getD [])) ∧
    StringReader.fill_buf (⟨[], none⟩ : StringReader ρ) = .ok [] ∧
    (∀ r : StringReader ρ,
      StringReader.fill_buf r = .ok ((StringReader.peek_str r).getD [])) := by
  have hgen : ∀ r : StringReader ρ,
      StringReader.fill_buf r = .ok ((StringReader.peek_str r).getD []) := by
    rintro ⟨q, fb⟩
    cases q with
    | cons c rest => rfl
    | nil =>
      cases fb with
      | none => rfl
      | some fb =>
        cases hpk : StringReadC.peek_str fb with
        | none => simp [StringReader.fill_buf, StringReader.peek_str, hpk]
        | some s => simp [StringReader.fill_buf, StringReader.peek_str, hpk]
  exact ⟨fun c rest fb => hgen ⟨c :: rest, fb⟩, fun fb => hgen ⟨[], some fb⟩,
    hgen ⟨[], none⟩, hgen⟩

/-- C3 (counterexample): `Read::read` does not terminate for every
`StringReader` state. With the `String` fallback — whose `peek_mut_string`
is always `Some` — on `StringReader { queue: [], reader: Some(String::new()) }`
and a 1-byte destination, the loop revisits the same state forever: no
iteration budget makes it exit. -/
theorem read_nonterminating :
    ¬ StringReader.readTerminates
        (⟨[], some ([] : Str)⟩ : StringReader Str) [0] := by
  rintro ⟨fuel, h⟩
  rw [StringReader.read, show ([0] : List Nat).length = 1 from rfl,
    StringReader.readLoop_empty_fallback fuel] at h
  exact absurd h (by decide)

/-- C3 (amended): on every fallback-free `StringReader` state, `Read::read`
terminates — the loop exits within `queue.length + 1` iterations (either
returning or panicking on a non-char-boundary split); it returns `Ok(0)`
with the buffer untouched when the source was already empty; and whenever it
returns `Ok(n)`, `n` is the number of bytes actually written: the buffer
keeps its length and the bytes from position `n` on are untouched. -/
theorem read_terminates_no_fallback {ρ : Type} [StringReadC ρ] :
    (∀ (q : List Str) (buf : List Nat),
      (StringReader.read (q.length + 1) (⟨q, none⟩ : StringReader ρ)
        buf).isFuelOut = false) ∧
    (∀ (buf : List Nat) (fuel : Nat),
      StringReader.read (fuel + 1) (⟨[], none⟩ : StringReader ρ) buf =
        .ok buf 0 ⟨[], none⟩) ∧
    (∀ (fuel : Nat) (r : StringReader ρ) (buf buf' : List Nat) (n : Nat)
        (r' : StringReader ρ),
      StringReader.read fuel r buf = .ok buf' n r' →
      buf'.length = buf.length ∧ n ≤ buf.length ∧ buf'.drop n = buf.drop n) := by
  refine ⟨fun q buf => StringReader.readLoop_none_term q 0 buf 0 buf.length,
    fun buf fuel => ?_, fun fuel r buf buf' n r' h => ?_⟩
  · rw [StringReader.read, StringReader.readLoop,
      show StringReader.readStep (⟨[], none⟩ : StringReader ρ) buf 0 buf.length =
        .exit (.ok buf 0 ⟨[], none⟩) by
        simp [StringReader.readStep, StringReader.peek_mut_string]]
  · obtain ⟨h1, _, h3, h4⟩ :=
      StringReader.readLoop_ok_spec fuel r buf 0 buf.length buf' n r'
        (by omega) h
    exact ⟨h1, h3, h4⟩

/-- Witness for the amended C3 theorem at a concrete input: a `read` of the
empty fallback-free reader into the buffer `[7, 9]` returns `Ok(0)` leaving
both bytes untouched. -/
theorem read_terminates_no_fallback_witness :
    ([7, 9] : List Nat).length = ([7, 9] : List Nat).length ∧
      (0 : Nat) ≤ ([7, 9] : List Nat).length ∧
      ([7, 9] : List Nat).drop 0 = ([7, 9] : List Nat).drop 0 :=
  (read_terminates_no_fallback (ρ := Str)).2.2 1 ⟨[], none⟩ [7, 9] [7, 9] 0
    ⟨[], none⟩ (by decide)

/-- C4 (counterexample): the truncation step does not report success for
every chunk content and every remaining capacity `l`: with front chunk
`"é"` (bytes `[0xC3, 0xA9]`) and a 1-byte destination, `l = 1` falls inside
the 2-byte character, `s[..1]` is out of char bounds, and `read` panics. -/
theorem read_split_panics :
    StringReader.read 1 (⟨[[195, 169]], (none : Option Str)⟩) [0] =
        .panicked ∧
      (StringReader.read 1 (⟨[[195, 169]], (none : Option Str)⟩)
        [0]).isFuelOut = false := by
  decide

/-- C4 (amended): when the front chunk `s` is longer than the remaining
capacity `l` and `l` is a UTF-8 char boundary of `s`, `read` copies exactly
the first `l` bytes of `s` into the destination, replaces the front chunk in
place by its suffix starting at byte `l`, and returns the full destination
length; when `l` is not a char boundary of `s`, the same step panics instead
of reporting success. -/
theorem read_truncates_at_boundary {ρ : Type} [StringReadC ρ] :
    ∀ (s : Str) (rest : List Str) (fb : Option ρ) (buf : List Nat)
      (pos l fuel : Nat),
      pos + l = buf.length → l < s.length →
      (isCharBoundary s l = true →
        StringReader.readLoop (fuel + 1) ⟨s :: rest, fb⟩ buf pos l =
          .ok (buf.take pos ++ s.take l) buf.length
            ⟨s.drop l :: rest, fb⟩) ∧
      (isCharBoundary s l = false →
        StringReader.readLoop (fuel + 1) ⟨s :: rest, fb⟩ buf pos l =
          .panicked) := by
  intro s rest fb buf pos l fuel hinv hlt
  have hp : StringReader.peek_mut_string
      (⟨s :: rest, fb⟩ : StringReader ρ) = some s := rfl
  constructor
  · intro hcb
    rw [StringReader.readLoop,
      show StringReader.readStep (⟨s :: rest, fb⟩ : StringReader ρ) buf pos l =
        .exit (.ok (buf.take pos ++ s.take l) buf.length
          (StringReader.write_mut_string ⟨s :: rest, fb⟩ (s.drop l))) by
        simp [StringReader.readStep, hp, hlt, hcb]
        omega]
    rfl
  · intro hcb
    rw [StringReader.readLoop,
      show StringReader.readStep (⟨s :: rest, fb⟩ : StringReader ρ) buf pos l =
        .exit .panicked by
        simp [StringReader.readStep, hp, hlt, hcb]]

/-- Witness for the amended C4 theorem at a concrete input: front chunk
"ab", capacity 1 (a char boundary), one-byte destination. -/
theorem read_truncates_at_boundary_witness :
    StringReader.readLoop 1 (⟨[ascii "ab"], (none : Option Str)⟩) [0] 0 1 =
      .ok (([0] : List Nat).take 0 ++ (ascii "ab").take 1)
        ([0] : List Nat).length ⟨[(ascii "ab").drop 1], none⟩ :=
  (read_truncates_at_boundary (ascii "ab") [] none [0] 0 1 0 (by decide)
    (by decide)).1 (by decide)

/-- C6: for both reader variants, `is_empty` is true exactly when an
immediately subsequent pop would return nothing, and exactly when the queue
is empty and either no fallback exists or the fallback itself reports empty.
The hypotheses state the same peek/pop coherence for the fallback's own
implementation (satisfied by every implementation in the crate, in
particular by `String` and `str`, whose `is_empty` is constantly false and
whose pop constantly returns `Some`). -/
theorem is_empty_iff_pop_none {ρ σ : Type} [StringReadC ρ] [RealStrReadC σ]
    (hρ : ∀ fb : ρ, StringReadC.is_empty fb = true ↔
      (StringReadC.pop_string fb).1 = none)
    (hσ : ∀ fb : σ, RealStrReadC.is_empty fb = true ↔
      (RealStrReadC.pop_str fb).1 = none) :
    (∀ r : StringReader ρ,
      (StringReader.is_empty r = true ↔ (StringReader.pop_string r).1 = none) ∧
      (StringReader.is_empty r = true ↔
        r.queue = [] ∧ (r.reader = none ∨
          ∃ fb, r.reader = some fb ∧ StringReadC.is_empty fb = true))) ∧
    (∀ r : StrReader σ,
      (StrReader.is_empty r = true ↔ (StrReader.pop_str r).1 = none) ∧
      (StrReader.is_empty r = true ↔
        r.queue = [] ∧ (r.reader = none ∨
          ∃ fb, r.reader = some fb ∧ RealStrReadC.is_empty fb = true))) := by
  constructor
  · rintro ⟨q, fb⟩
    cases q with
    | cons c rest =>
      exact ⟨by simp [StringReader.is_empty, StringReader.pop_string],
        by simp [StringReader.is_empty]⟩
    | nil =>
      cases fb with
      | none =>
        exact ⟨by simp [StringReader.is_empty, StringReader.pop_string],
          by simp [StringReader.is_empty]⟩
      | some fb =>
        exact ⟨by simpa [StringReader.is_empty, StringReader.pop_string]
            using hρ fb,
          by simp [StringReader.is_empty]⟩
  · rintro ⟨q, fb⟩
    cases q with
    | cons c rest =>
      exact ⟨by simp [StrReader.is_empty, StrReader.pop_str],
        by simp [StrReader.is_empty]⟩
    | nil =>
      cases fb with
      | none =>
        exact ⟨by simp [StrReader.is_empty, StrReader.pop_str],
          by simp [StrReader.is_empty]⟩
      | some fb =>
        exact ⟨by simpa [StrReader.is_empty, StrReader.pop_str] using hσ fb,
          by simp [StrReader.is_empty]⟩

/-- Witness for the C6 theorem with both fallback types instantiated at the
crate's own `String` / `str` implementations, evaluated at a concrete
state. -/
theorem is_empty_iff_pop_none_witness :
    StringReader.is_empty (⟨[], some ([] : Str)⟩ : StringReader Str) = true ↔
      (StringReader.pop_string
        (⟨[], some ([] : Str)⟩ : StringReader Str)).1 = none :=
  ((is_empty_iff_pop_none (ρ := Str) (σ := Str)
    (fun fb => by
      rw [show StringReadC.is_empty fb = false from rfl,
        show (StringReadC.pop_string fb).1 = some fb from rfl]
      simp)
    (fun fb => by
      rw [show RealStrReadC.is_empty fb = false from rfl,
        show (RealStrReadC.pop_str fb).1 = some fb from rfl]
      simp)).1 ⟨[], some []⟩).1

/-- C10: the `String` chunk source peeks `Some` and reports non-empty for
every value including the empty string; consequently a `StringReader` whose
fallback slot is occupied by a `String` — as produced by `From<String>` —
reports `is_empty() == false` and pops `Some` in every such state, and every
mutating operation (push, shift, pop, writing through the mutable peek, and
the `read` loop) keeps the fallback slot occupied. -/
theorem string_fallback_never_empty :
    (∀ s : Str, StringImpl.peek_str s = some s ∧
      StringImpl.is_empty s = false) ∧
    (∀ s : Str,
      (StringReader.from_reader s : StringReader Str).reader.isSome = true) ∧
    (∀ r : StringReader Str, r.reader.isSome = true →
      StringReader.is_empty r = false ∧
      (StringReader.pop_string r).1.isSome = true) ∧
    (∀ (r : StringReader Str) (v : Str),
      (StringReader.push_string r v).reader = r.reader ∧
      (StringReader.shift_string r v).reader = r.reader ∧
      (StringReader.pop_string r).2.reader.isSome = r.reader.isSome ∧
      (StringReader.write_mut_string r v).reader.isSome = r.reader.isSome) ∧
    (∀ (fuel : Nat) (r : StringReader Str) (buf buf' : List Nat)
        (pos l n : Nat) (r' : StringReader Str),
      StringReader.readLoop fuel r buf pos l = .ok buf' n r' →
      r'.reader.isSome = r.reader.isSome) := by
  refine ⟨fun s => ⟨rfl, rfl⟩, fun s => rfl, ?_,
    fun r v => ⟨rfl, rfl, StringReader.pop_reader_isSome r,
      StringReader.write_reader_isSome r v⟩,
    fun fuel r buf buf' pos l n r' h =>
      StringReader.readLoop_ok_reader_isSome fuel r buf pos l buf' n r' h⟩
  rintro ⟨q, fb⟩ hsome
  cases fb with
  | none => simp at hsome
  | some fb => exact ⟨by cases q <;> rfl, by cases q <;> rfl⟩

/-- Witness for the C10 theorem at a concrete state whose fallback is the
empty `String`. -/
theorem string_fallback_never_empty_witness :
    StringReader.is_empty
        (⟨[ascii "x"], some ([] : Str)⟩ : StringReader Str) = false ∧
      (StringReader.pop_string
        (⟨[ascii "x"], some ([] : Str)⟩ : StringReader Str)).1.isSome = true :=
  string_fallback_never_empty.2.2.1 ⟨[ascii "x"], some []⟩ (by decide)
